import Mathlib

/-
Verification of the DCA escrow engine described in the repository's
documentation.  The repository's visible sources are the README
(src/unnamed/part_000, which documents the public methods and shows the
caller-facing usage) and deployment/test scaffolding; the escrow core
itself (instructions/setup_dca.rs, close.rs, airdrop.rs, state/escrow.rs)
is not present in the sources.  The state machine below is therefore
modelled from the documented contract, with the public surface taken
from the README's usage examples.
-/

namespace TradingBot

/-- Modelled from the spec: the error kinds of the escrow engine (spec section 7). -/
inductive Err where
  | InvalidParameters
  | InvalidSchedule
  | DuplicateStrategy
  | NotFound
  | CycleNotDue
  | StrategyComplete
  | SwapFailed
  | SlippageExceeded
  | AlreadyClaimed
  | Unauthorized
  deriving DecidableEq

/-- Modelled from the spec: the Escrow Record, one per active strategy
(spec section 3).  Identities, mints and timestamps are represented as
naturals; last_cycle_at is none before the first cycle. -/
structure EscrowRecord where
  owner : Nat
  input_mint : Nat
  output_mint : Nat
  application_index : Nat
  in_deposited : Nat
  in_per_cycle : Nat
  cycle_frequency : Nat
  min_out_amount : Nat
  max_out_amount : Nat
  start_at : Nat
  in_used : Nat
  out_received : Nat
  last_cycle_at : Option Nat
  cycles_executed : Nat
  deriving DecidableEq

/-- Records are addressed by the pair (owner, application_index). -/
abbrev Key := Nat × Nat

/-- Association-list lookup, used for the deterministic key-to-record map. -/
def alookup {α β : Type} [DecidableEq α] : List (α × β) → α → Option β
  | [], _ => none
  | (k, v) :: rest, a => if k = a then some v else alookup rest a

/-- Remove every binding of a key from an association list. -/
def aerase {α β : Type} [DecidableEq α] : List (α × β) → α → List (α × β)
  | [], _ => []
  | (k, v) :: rest, a => if k = a then aerase rest a else (k, v) :: aerase rest a

/-- Overwrite the binding of a key in an association list. -/
def aset {α β : Type} [DecidableEq α] (l : List (α × β)) (a : α) (b : β) : List (α × β) :=
  (a, b) :: aerase l a

/-- Balance of an account in a ledger represented as an association list
(absent means zero). -/
def bal {α : Type} [DecidableEq α] (l : List (α × Nat)) (a : α) : Nat :=
  (alookup l a).getD 0

/-- Modelled from the spec: global persistent state: the Escrow Records keyed by
(owner, application_index), the program custody balances of the input and
output asset per record key, the owner wallet balances credited on Close,
the per-(participant, airdrop_id) claimed markers, and reward balances. -/
structure ProgramState where
  escrows : List (Key × EscrowRecord)
  custodyIn : List (Key × Nat)
  custodyOut : List (Key × Nat)
  ownerIn : List (Nat × Nat)
  ownerOut : List (Nat × Nat)
  claimed : List ((Nat × Nat) × Unit)
  rewards : List (Nat × Nat)
  deriving DecidableEq

/-- The state before any call: no records, no custody, no markers. -/
def emptyState : ProgramState :=
  { escrows := [], custodyIn := [], custodyOut := [], ownerIn := [],
    ownerOut := [], claimed := [], rewards := [] }

/-- Modelled from the spec: Setup parameter validation (spec section 4.1):
amounts positive, per-cycle amount at most the deposit, positive frequency,
and min bound at most max bound when both are nonzero (0 meaning unbounded). -/
def validParams (inAmount perCycle freq minOut maxOut : Nat) : Bool :=
  decide (0 < inAmount) && decide (0 < perCycle) && decide (perCycle ≤ inAmount) &&
    decide (0 < freq) &&
    (decide (minOut = 0) || decide (maxOut = 0) || decide (minOut ≤ maxOut))

/-- Modelled from the spec: the start_at schedule check: if given, start_at must
not lie in the past relative to the call time (tolerance taken as zero). -/
def startOk (startAt : Option Nat) (now : Nat) : Bool :=
  match startAt with
  | none => true
  | some t => decide (now ≤ t)

/-- Modelled from the spec: the Escrow Record created by a valid Setup call:
zero consumed, zero received, zero cycles, no prior cycle timestamp,
start_at defaulting to the creation time when unspecified. -/
def newRecord (caller appIdx inAmount perCycle freq minOut maxOut : Nat)
    (startAt : Option Nat) (now inMint outMint : Nat) : EscrowRecord :=
  { owner := caller, input_mint := inMint, output_mint := outMint,
    application_index := appIdx, in_deposited := inAmount,
    in_per_cycle := perCycle, cycle_frequency := freq,
    min_out_amount := minOut, max_out_amount := maxOut,
    start_at := startAt.getD now, in_used := 0, out_received := 0,
    last_cycle_at := none, cycles_executed := 0 }

/-- Modelled from the spec: the Strategy Setup operation (spec section 4.1;
the instruction implementation setup_dca.rs is absent from the sources).
Validates parameters (InvalidParameters), the schedule (InvalidSchedule),
refuses an existing key (DuplicateStrategy), and otherwise atomically moves
in_amount of the input asset into program custody and creates the record. -/
def setupDca (caller appIdx inAmount perCycle freq minOut maxOut : Nat)
    (startAt : Option Nat) (now inMint outMint : Nat)
    (s : ProgramState) : Except Err ProgramState :=
  if validParams inAmount perCycle freq minOut maxOut = false then
    Except.error Err.InvalidParameters
  else if startOk startAt now = false then
    Except.error Err.InvalidSchedule
  else
    match alookup s.escrows (caller, appIdx) with
    | some _ => Except.error Err.DuplicateStrategy
    | none =>
      Except.ok { s with
        escrows := aset s.escrows (caller, appIdx)
          (newRecord caller appIdx inAmount perCycle freq minOut maxOut startAt now inMint outMint),
        custodyIn := aset s.custodyIn (caller, appIdx)
          (bal s.custodyIn (caller, appIdx) + inAmount) }

/-- Modelled from the spec: the cycle due-time guard: current time at or after
start_at and at or after last_cycle_at + cycle_frequency (or no prior cycle). -/
def isDue (r : EscrowRecord) (now : Nat) : Bool :=
  decide (r.start_at ≤ now) &&
    (match r.last_cycle_at with
     | none => true
     | some t => decide (t + r.cycle_frequency ≤ now))

/-- Modelled from the spec: the per-cycle output-bounds check, 0 meaning
unbounded on the respective side (spec sections 4.2 and 9). -/
def boundsViolated (r : EscrowRecord) (amountOut : Nat) : Bool :=
  (decide (r.min_out_amount ≠ 0) && decide (amountOut < r.min_out_amount)) ||
    (decide (r.max_out_amount ≠ 0) && decide (r.max_out_amount < amountOut))

/-- Modelled from the spec: the record after a successful cycle at time now
with adapter output amountOut: in_used advanced by
min(in_per_cycle, in_deposited - in_used), output credited, timestamp and
cycle count updated. -/
def cycledRecord (r : EscrowRecord) (now amountOut : Nat) : EscrowRecord :=
  { r with
    in_used := r.in_used + min r.in_per_cycle (r.in_deposited - r.in_used),
    out_received := r.out_received + amountOut,
    last_cycle_at := some now,
    cycles_executed := r.cycles_executed + 1 }

/-- Modelled from the spec: the Cycle Execution step (spec section 4.2; the
instruction implementation is absent from the sources).  The Swap Venue
Adapter is passed in as its result: none for SwapFailed, some amountOut for
a successful swap of the requested amount_in.  Each call is atomic: an
error returns no successor state. -/
def executeCycle (now : Nat) (key : Key) (adapterResult : Option Nat)
    (s : ProgramState) : Except Err ProgramState :=
  match alookup s.escrows key with
  | none => Except.error Err.NotFound
  | some r =>
    if isDue r now = false then Except.error Err.CycleNotDue
    else if r.in_deposited - r.in_used = 0 then Except.error Err.StrategyComplete
    else
      match adapterResult with
      | none => Except.error Err.SwapFailed
      | some amountOut =>
        if boundsViolated r amountOut = true then Except.error Err.SlippageExceeded
        else
          Except.ok { s with
            escrows := aset s.escrows key (cycledRecord r now amountOut),
            custodyIn := aset s.custodyIn key
              (bal s.custodyIn key - min r.in_per_cycle (r.in_deposited - r.in_used)),
            custodyOut := aset s.custodyOut key (bal s.custodyOut key + amountOut) }

/-- Modelled from the spec: the Close operation (spec section 4.2; close.rs is
absent from the sources).  Transfers the remaining custodied input and all
accumulated output to the owner, zeroes the custody under the key and
destroys the record; NotFound when no record exists for the caller's key. -/
def close (caller appIdx : Nat) (s : ProgramState) : Except Err ProgramState :=
  match alookup s.escrows (caller, appIdx) with
  | none => Except.error Err.NotFound
  | some r =>
    Except.ok { s with
      escrows := aerase s.escrows (caller, appIdx),
      custodyIn := aset s.custodyIn (caller, appIdx) 0,
      custodyOut := aset s.custodyOut (caller, appIdx) 0,
      ownerIn := aset s.ownerIn caller
        (bal s.ownerIn caller + (r.in_deposited - r.in_used)),
      ownerOut := aset s.ownerOut caller (bal s.ownerOut caller + r.out_received) }

/-- Modelled from the spec: the Airdrop Distribution operation (spec section
4.3; airdrop.rs is absent from the sources).  One-shot per
(participant, airdrop_id): fails AlreadyClaimed when the marker exists,
otherwise transfers the externally determined reward amount and sets the
marker.  It never touches the Escrow Records. -/
def airdrop (participant airdropId amount : Nat) (s : ProgramState) :
    Except Err ProgramState :=
  match alookup s.claimed (participant, airdropId) with
  | some _ => Except.error Err.AlreadyClaimed
  | none =>
    Except.ok { s with
      claimed := aset s.claimed (participant, airdropId) (),
      rewards := aset s.rewards participant (bal s.rewards participant + amount) }

/-- Modelled from the spec: one caller-facing call with its arguments. -/
inductive Op where
  | setup (caller appIdx inAmount perCycle freq minOut maxOut : Nat)
      (startAt : Option Nat) (now inMint outMint : Nat)
  | cycle (now : Nat) (key : Key) (adapterResult : Option Nat)
  | close (caller appIdx : Nat)
  | claim (participant airdropId amount : Nat)

/-- Dispatch one call against the state. -/
def applyOp : Op → ProgramState → Except Err ProgramState
  | Op.setup caller appIdx inAmount perCycle freq minOut maxOut startAt now inMint outMint, s =>
      setupDca caller appIdx inAmount perCycle freq minOut maxOut startAt now inMint outMint s
  | Op.cycle now key res, s => executeCycle now key res s
  | Op.close caller appIdx, s => close caller appIdx s
  | Op.claim p aid amount, s => airdrop p aid amount s

/-- Modelled from the spec: atomic all-or-nothing call semantics: a failed
call leaves the persistent state exactly as it was. -/
def recover (x : Except Err ProgramState) (s : ProgramState) : ProgramState :=
  match x with
  | Except.ok s2 => s2
  | Except.error _ => s

/-- Run a sequence of calls; failed calls leave the state unchanged. -/
def run : List Op → ProgramState → ProgramState
  | [], s => s
  | op :: rest, s => run rest (recover (applyOp op s) s)

/-- Run a sequence of Cycle Execution calls against one key, returning the
final state together with the list of times of the successful cycles, in
call order. -/
def cycleRun (key : Key) : List (Nat × Option Nat) → ProgramState → ProgramState × List Nat
  | [], s => (s, [])
  | (now, res) :: rest, s =>
    match executeCycle now key res s with
    | Except.ok s2 => ((cycleRun key rest s2).1, now :: (cycleRun key rest s2).2)
    | Except.error _ => cycleRun key rest s

/-- Modelled from the README usage examples (the only caller-facing code in the
repository): each public method paired with the list of explicit arguments it
is invoked with; the accounts context (and with it the caller identity) is
supplied separately. -/
def publicSurface : List (String × List String) :=
  [("setupDca",
    ["applicationIdx", "inAmount", "inAmountPerCycle", "cycleFrequency",
     "minOutAmount", "maxOutAmount", "startAt"]),
   ("close", []),
   ("airdrop", [])]

/-- The accounting invariant of spec section 3: every record consumes at most
what was deposited. -/
def escrowInv (s : ProgramState) : Prop :=
  ∀ key r, alookup s.escrows key = some r → r.in_used ≤ r.in_deposited

/-- The schedule discipline of a list of successful cycle times, relative to
the time of the prior cycle when one exists: every time is at or after
start_at, and each time is at least freq after its predecessor. -/
def dueChain (startAt freq : Nat) : Option Nat → List Nat → Prop
  | _, [] => True
  | prev, t :: rest =>
    startAt ≤ t ∧ (∀ p, prev = some p → p + freq ≤ t) ∧ dueChain startAt freq (some t) rest

/-- A concrete record as created by a valid Setup call, used to instantiate
the theorems below (the scenario of spec section 8). -/
def sampleRecord : EscrowRecord :=
  { owner := 1, input_mint := 10, output_mint := 11, application_index := 0,
    in_deposited := 1000, in_per_cycle := 100, cycle_frequency := 3600,
    min_out_amount := 0, max_out_amount := 0, start_at := 0,
    in_used := 0, out_received := 0, last_cycle_at := none, cycles_executed := 0 }

/-- A concrete state holding sampleRecord with its custody balance. -/
def sampleState : ProgramState :=
  { escrows := [((1, 0), sampleRecord)], custodyIn := [((1, 0), 1000)],
    custodyOut := [], ownerIn := [], ownerOut := [], claimed := [], rewards := [] }

/-- A concrete record with a nonzero lower output bound. -/
def sampleRecordB : EscrowRecord :=
  { sampleRecord with application_index := 1, min_out_amount := 50 }

/-- A concrete state holding sampleRecordB with its custody balance. -/
def sampleStateB : ProgramState :=
  { escrows := [((1, 1), sampleRecordB)], custodyIn := [((1, 1), 1000)],
    custodyOut := [], ownerIn := [], ownerOut := [], claimed := [], rewards := [] }

theorem alookup_aerase_ne {α β : Type} [DecidableEq α] (l : List (α × β)) (a c : α)
    (h : a ≠ c) : alookup (aerase l a) c = alookup l c := by
  induction l with
  | nil => rfl
  | cons kv rest ih =>
    obtain ⟨k, v⟩ := kv
    by_cases hk : k = a
    · subst hk
      simp [aerase, alookup, h, ih]
    · simp [aerase, alookup, hk, ih]

theorem alookup_aerase_self {α β : Type} [DecidableEq α] (l : List (α × β)) (a : α) :
    alookup (aerase l a) a = none := by
  induction l with
  | nil => rfl
  | cons kv rest ih =>
    obtain ⟨k, v⟩ := kv
    by_cases hk : k = a
    · simp [aerase, hk, ih]
    · simp [aerase, alookup, hk, ih]

theorem alookup_aset_self {α β : Type} [DecidableEq α] (l : List (α × β)) (a : α) (b : β) :
    alookup (aset l a b) a = some b := by
  simp [aset, alookup]

theorem alookup_aset_ne {α β : Type} [DecidableEq α] (l : List (α × β)) (a c : α) (b : β)
    (h : a ≠ c) : alookup (aset l a b) c = alookup l c := by
  simp [aset, alookup, h, alookup_aerase_ne l a c h]

theorem bal_aset_self {α : Type} [DecidableEq α] (l : List (α × Nat)) (a : α) (n : Nat) :
    bal (aset l a n) a = n := by
  simp [bal, alookup_aset_self]

/-- Success inversion for Setup: a successful call certifies the guards and
fully determines the successor state. -/
theorem setupDca_ok_inv {caller appIdx inAmount perCycle freq minOut maxOut : Nat}
    {startAt : Option Nat} {now inMint outMint : Nat} {s s2 : ProgramState}
    (h : setupDca caller appIdx inAmount perCycle freq minOut maxOut startAt now inMint outMint s
      = Except.ok s2) :
    validParams inAmount perCycle freq minOut maxOut = true ∧
    startOk startAt now = true ∧
    alookup s.escrows (caller, appIdx) = none ∧
    s2 = { s with
      escrows := aset s.escrows (caller, appIdx)
        (newRecord caller appIdx inAmount perCycle freq minOut maxOut startAt now inMint outMint),
      custodyIn := aset s.custodyIn (caller, appIdx)
        (bal s.custodyIn (caller, appIdx) + inAmount) } := by
  by_cases hv : validParams inAmount perCycle freq minOut maxOut = false
  · rw [setupDca, if_pos hv] at h
    exact absurd h (by simp)
  · rw [setupDca, if_neg hv] at h
    by_cases hs : startOk startAt now = false
    · rw [if_pos hs] at h
      exact absurd h (by simp)
    · rw [if_neg hs] at h
      rcases hl : alookup s.escrows (caller, appIdx) with _ | r <;> rw [hl] at h
      · simp only [Except.ok.injEq] at h
        exact ⟨by simpa using hv, by simpa using hs, rfl, h.symm⟩
      · exact absurd h (by simp)

/-- Success inversion for Cycle Execution: a successful call certifies the
guards and fully determines the successor state. -/
theorem executeCycle_ok_inv {now : Nat} {key : Key} {res : Option Nat} {s s2 : ProgramState}
    (h : executeCycle now key res s = Except.ok s2) :
    ∃ r amountOut, alookup s.escrows key = some r ∧
      isDue r now = true ∧ r.in_deposited - r.in_used ≠ 0 ∧
      res = some amountOut ∧ boundsViolated r amountOut = false ∧
      s2 = { s with
        escrows := aset s.escrows key (cycledRecord r now amountOut),
        custodyIn := aset s.custodyIn key
          (bal s.custodyIn key - min r.in_per_cycle (r.in_deposited - r.in_used)),
        custodyOut := aset s.custodyOut key (bal s.custodyOut key + amountOut) } := by
  rcases hl : alookup s.escrows key with _ | r
  · rw [executeCycle, hl] at h
    exact absurd h (by simp)
  · rw [executeCycle, hl] at h
    simp only [] at h
    by_cases hdue : isDue r now = false
    · rw [if_pos hdue] at h
      exact absurd h (by simp)
    · rw [if_neg hdue] at h
      by_cases hrem : r.in_deposited - r.in_used = 0
      · rw [if_pos hrem] at h
        exact absurd h (by simp)
      · rw [if_neg hrem] at h
        rcases res with _ | amountOut
        · exact absurd h (by simp)
        · simp only [] at h
          by_cases hb : boundsViolated r amountOut = true
          · rw [if_pos hb] at h
            exact absurd h (by simp)
          · rw [if_neg hb] at h
            simp only [Except.ok.injEq] at h
            exact ⟨r, amountOut, rfl, by simpa using hdue, hrem, rfl,
              by simpa using hb, h.symm⟩

/-- Success inversion for Close. -/
theorem close_ok_inv {caller appIdx : Nat} {s s2 : ProgramState}
    (h : close caller appIdx s = Except.ok s2) :
    ∃ r, alookup s.escrows (caller, appIdx) = some r ∧
      s2 = { s with
        escrows := aerase s.escrows (caller, appIdx),
        custodyIn := aset s.custodyIn (caller, appIdx) 0,
        custodyOut := aset s.custodyOut (caller, appIdx) 0,
        ownerIn := aset s.ownerIn caller
          (bal s.ownerIn caller + (r.in_deposited - r.in_used)),
        ownerOut := aset s.ownerOut caller (bal s.ownerOut caller + r.out_received) } := by
  rcases hl : alookup s.escrows (caller, appIdx) with _ | r
  · rw [close, hl] at h
    exact absurd h (by simp)
  · rw [close, hl] at h
    simp only [Except.ok.injEq] at h
    exact ⟨r, rfl, h.symm⟩

/-- Success inversion for Airdrop. -/
theorem airdrop_ok_inv {p aid amount : Nat} {s s2 : ProgramState}
    (h : airdrop p aid amount s = Except.ok s2) :
    alookup s.claimed (p, aid) = none ∧
    s2 = { s with
      claimed := aset s.claimed (p, aid) (),
      rewards := aset s.rewards p (bal s.rewards p + amount) } := by
  rcases hl : alookup s.claimed (p, aid) with _ | u
  · rw [airdrop, hl] at h
    simp only [Except.ok.injEq] at h
    exact ⟨rfl, h.symm⟩
  · rw [airdrop, hl] at h
    exact absurd h (by simp)

/-- Forward equation: Setup succeeds on valid parameters and a fresh key. -/
theorem setupDca_ok_eq {caller appIdx inAmount perCycle freq minOut maxOut : Nat}
    {startAt : Option Nat} {now inMint outMint : Nat} {s : ProgramState}
    (hv : validParams inAmount perCycle freq minOut maxOut = true)
    (hstart : startOk startAt now = true)
    (hl : alookup s.escrows (caller, appIdx) = none) :
    setupDca caller appIdx inAmount perCycle freq minOut maxOut startAt now inMint outMint s
      = Except.ok { s with
          escrows := aset s.escrows (caller, appIdx)
            (newRecord caller appIdx inAmount perCycle freq minOut maxOut startAt now inMint outMint),
          custodyIn := aset s.custodyIn (caller, appIdx)
            (bal s.custodyIn (caller, appIdx) + inAmount) } := by
  rw [setupDca, if_neg (by simp [hv]), if_neg (by simp [hstart]), hl]

/-- Forward equation: Setup on an occupied key with otherwise valid inputs
fails DuplicateStrategy. -/
theorem setupDca_dup {caller appIdx inAmount perCycle freq minOut maxOut : Nat}
    {startAt : Option Nat} {now inMint outMint : Nat} {s : ProgramState} {r : EscrowRecord}
    (hv : validParams inAmount perCycle freq minOut maxOut = true)
    (hstart : startOk startAt now = true)
    (hl : alookup s.escrows (caller, appIdx) = some r) :
    setupDca caller appIdx inAmount perCycle freq minOut maxOut startAt now inMint outMint s
      = Except.error Err.DuplicateStrategy := by
  rw [setupDca, if_neg (by simp [hv]), if_neg (by simp [hstart]), hl]

/-- Forward equation: a cycle call on an existing record that is not yet due
fails CycleNotDue. -/
theorem executeCycle_notDue {now : Nat} {key : Key} {s : ProgramState} (res : Option Nat)
    {r : EscrowRecord} (hl : alookup s.escrows key = some r)
    (hd : isDue r now = false) :
    executeCycle now key res s = Except.error Err.CycleNotDue := by
  rw [executeCycle, hl]
  simp [hd]

/-- Forward equation: adapter failure on a due, incomplete record fails
SwapFailed. -/
theorem executeCycle_swapFailed {now : Nat} {key : Key} {s : ProgramState}
    {r : EscrowRecord} (hl : alookup s.escrows key = some r)
    (hdue : isDue r now = true) (hrem : r.in_deposited - r.in_used ≠ 0) :
    executeCycle now key none s = Except.error Err.SwapFailed := by
  rw [executeCycle, hl]
  simp [hdue, hrem]

/-- Forward equation: a bound-violating adapter output on a due, incomplete
record fails SlippageExceeded. -/
theorem executeCycle_slippage {now : Nat} {key : Key} {amountOut : Nat} {s : ProgramState}
    {r : EscrowRecord} (hl : alookup s.escrows key = some r)
    (hdue : isDue r now = true) (hrem : r.in_deposited - r.in_used ≠ 0)
    (hb : boundsViolated r amountOut = true) :
    executeCycle now key (some amountOut) s = Except.error Err.SlippageExceeded := by
  rw [executeCycle, hl]
  simp [hdue, hrem, hb]

/-- Forward equation: a successful cycle fully determines the successor state. -/
theorem executeCycle_ok_eq {now : Nat} {key : Key} {amountOut : Nat} {s : ProgramState}
    {r : EscrowRecord} (hl : alookup s.escrows key = some r)
    (hdue : isDue r now = true) (hrem : r.in_deposited - r.in_used ≠ 0)
    (hb : boundsViolated r amountOut = false) :
    executeCycle now key (some amountOut) s = Except.ok { s with
      escrows := aset s.escrows key (cycledRecord r now amountOut),
      custodyIn := aset s.custodyIn key
        (bal s.custodyIn key - min r.in_per_cycle (r.in_deposited - r.in_used)),
      custodyOut := aset s.custodyOut key (bal s.custodyOut key + amountOut) } := by
  rw [executeCycle, hl]
  simp [hdue, hrem, hb]

/-- Forward equation: Close succeeds when the caller's record exists. -/
theorem close_ok_eq {caller appIdx : Nat} {s : ProgramState} {r : EscrowRecord}
    (hl : alookup s.escrows (caller, appIdx) = some r) :
    close caller appIdx s = Except.ok { s with
      escrows := aerase s.escrows (caller, appIdx),
      custodyIn := aset s.custodyIn (caller, appIdx) 0,
      custodyOut := aset s.custodyOut (caller, appIdx) 0,
      ownerIn := aset s.ownerIn caller
        (bal s.ownerIn caller + (r.in_deposited - r.in_used)),
      ownerOut := aset s.ownerOut caller (bal s.ownerOut caller + r.out_received) } := by
  rw [close, hl]

/-- Forward equation: Close with no record fails NotFound. -/
theorem close_notFound {caller appIdx : Nat} {s : ProgramState}
    (hl : alookup s.escrows (caller, appIdx) = none) :
    close caller appIdx s = Except.error Err.NotFound := by
  rw [close, hl]

/-- Forward equation: Airdrop succeeds when the marker is absent. -/
theorem airdrop_ok_eq {p aid amount : Nat} {s : ProgramState}
    (hl : alookup s.claimed (p, aid) = none) :
    airdrop p aid amount s = Except.ok { s with
      claimed := aset s.claimed (p, aid) (),
      rewards := aset s.rewards p (bal s.rewards p + amount) } := by
  rw [airdrop, hl]

/-- Forward equation: Airdrop with the marker present fails AlreadyClaimed. -/
theorem airdrop_already {p aid amount : Nat} {s : ProgramState} {u : Unit}
    (hl : alookup s.claimed (p, aid) = some u) :
    airdrop p aid amount s = Except.error Err.AlreadyClaimed := by
  rw [airdrop, hl]

/-- Bool-to-Prop reading of the output-bounds check. -/
theorem boundsViolated_iff (r : EscrowRecord) (a : Nat) :
    boundsViolated r a = true ↔
      ((r.min_out_amount ≠ 0 ∧ a < r.min_out_amount) ∨
       (r.max_out_amount ≠ 0 ∧ r.max_out_amount < a)) := by
  simp [boundsViolated]

/-- Bool-to-Prop reading of failing parameter validation. -/
theorem validParams_false_iff (inAmount perCycle freq minOut maxOut : Nat) :
    validParams inAmount perCycle freq minOut maxOut = false ↔
      (inAmount = 0 ∨ perCycle = 0 ∨ inAmount < perCycle ∨ freq = 0 ∨
        (minOut ≠ 0 ∧ maxOut ≠ 0 ∧ maxOut < minOut)) := by
  simp only [validParams, Bool.and_eq_false_iff, Bool.or_eq_false_iff,
    decide_eq_false_iff_not, Nat.not_lt, Nat.le_zero, not_le]
  omega

/-- Arithmetic of the per-cycle slice: consuming
min(in_per_cycle, in_deposited - in_used) advances the closed form
min(n * in_per_cycle, in_deposited) by one cycle. -/
theorem accounting_step (per dep used n : Nat) (hu : used = min (n * per) dep) :
    used + min per (dep - used) = min ((n + 1) * per) dep := by
  have h1 : (n + 1) * per = n * per + per := by ring
  rw [h1]
  generalize n * per = q at hu ⊢
  simp only [Nat.min_def] at hu ⊢
  split_ifs at hu ⊢ <;> omega

/-- The closed-form accounting invariant is preserved along any sequence of
Cycle Execution calls, together with the immutable fields, with
cycles_executed advancing by the number of successes. -/
theorem cycleRun_accounting (key : Key) (inputs : List (Nat × Option Nat)) :
    ∀ (s : ProgramState) (r : EscrowRecord),
      alookup s.escrows key = some r →
      r.in_used = min (r.cycles_executed * r.in_per_cycle) r.in_deposited →
      ∃ r2, alookup (cycleRun key inputs s).1.escrows key = some r2 ∧
        r2.in_per_cycle = r.in_per_cycle ∧ r2.in_deposited = r.in_deposited ∧
        r2.cycles_executed = r.cycles_executed + (cycleRun key inputs s).2.length ∧
        r2.in_used = min (r2.cycles_executed * r.in_per_cycle) r.in_deposited := by
  induction inputs with
  | nil =>
    intro s r hl hinv
    exact ⟨r, by simpa [cycleRun] using hl, rfl, rfl, by simp [cycleRun],
      by simpa [cycleRun] using hinv⟩
  | cons p rest ih =>
    obtain ⟨now, res⟩ := p
    intro s r hl hinv
    rcases hE : executeCycle now key res s with e | s2
    · have hrun : cycleRun key ((now, res) :: rest) s = cycleRun key rest s := by
        simp [cycleRun, hE]
      rw [hrun]
      exact ih s r hl hinv
    · obtain ⟨r1, aOut, hl1, hdue, hrem, hres, hb, hs2⟩ := executeCycle_ok_inv hE
      rw [hl] at hl1
      obtain rfl : r = r1 := by
        simpa using hl1
      have hrun : cycleRun key ((now, res) :: rest) s =
          ((cycleRun key rest s2).1, now :: (cycleRun key rest s2).2) := by
        simp [cycleRun, hE]
      have hl2 : alookup s2.escrows key = some (cycledRecord r now aOut) := by
        rw [hs2]
        exact alookup_aset_self s.escrows key (cycledRecord r now aOut)
      have hinv2 : (cycledRecord r now aOut).in_used =
          min ((cycledRecord r now aOut).cycles_executed *
            (cycledRecord r now aOut).in_per_cycle) (cycledRecord r now aOut).in_deposited := by
        simp only [cycledRecord]
        exact accounting_step r.in_per_cycle r.in_deposited r.in_used r.cycles_executed hinv
      obtain ⟨r2, hl3, hper, hdep, hcy, hu⟩ := ih s2 (cycledRecord r now aOut) hl2 hinv2
      refine ⟨r2, by rwa [hrun], by simpa [cycledRecord] using hper,
        by simpa [cycledRecord] using hdep, ?_, ?_⟩
      · rw [hrun]
        simp only [cycledRecord] at hcy
        simp [hcy]
        omega
      · rw [hu]
        simp [cycledRecord, hdep]

/-- Every sequence of Cycle Execution calls respects the schedule discipline
recorded in dueChain. -/
theorem cycleRun_dueChain (key : Key) (inputs : List (Nat × Option Nat)) :
    ∀ (s : ProgramState) (r : EscrowRecord), alookup s.escrows key = some r →
      dueChain r.start_at r.cycle_frequency r.last_cycle_at (cycleRun key inputs s).2 := by
  induction inputs with
  | nil =>
    intro s r hl
    simp [cycleRun, dueChain]
  | cons p rest ih =>
    obtain ⟨now, res⟩ := p
    intro s r hl
    rcases hE : executeCycle now key res s with e | s2
    · have hrun : cycleRun key ((now, res) :: rest) s = cycleRun key rest s := by
        simp [cycleRun, hE]
      rw [hrun]
      exact ih s r hl
    · obtain ⟨r1, aOut, hl1, hdue, hrem, hres, hb, hs2⟩ := executeCycle_ok_inv hE
      rw [hl] at hl1
      obtain rfl : r = r1 := by
        simpa using hl1
      have hrun : cycleRun key ((now, res) :: rest) s =
          ((cycleRun key rest s2).1, now :: (cycleRun key rest s2).2) := by
        simp [cycleRun, hE]
      have hl2 : alookup s2.escrows key = some (cycledRecord r now aOut) := by
        rw [hs2]
        exact alookup_aset_self s.escrows key (cycledRecord r now aOut)
      have hch := ih s2 (cycledRecord r now aOut) hl2
      simp only [cycledRecord] at hch
      rw [hrun]
      simp only [isDue, Bool.and_eq_true, decide_eq_true_eq] at hdue
      refine ⟨hdue.1, ?_, hch⟩
      intro q hq
      have := hdue.2
      rw [hq] at this
      simpa using this

/-- A dueChain bounds every element below by start_at. -/
theorem dueChain_start {startAt freq : Nat} : ∀ {l : List Nat} {prev : Option Nat},
    dueChain startAt freq prev l → ∀ t ∈ l, startAt ≤ t := by
  intro l
  induction l with
  | nil =>
    intro prev _ t ht
    cases ht
  | cons u rest ih =>
    intro prev h t ht
    obtain ⟨hs, hp, hrest⟩ := h
    rcases List.mem_cons.mp ht with rfl | ht2
    · exact hs
    · exact ih hrest t ht2

/-- After a cycle at time t0, every element of a dueChain is at least
t0 + freq. -/
theorem dueChain_ge {startAt freq : Nat} : ∀ {l : List Nat} {t0 : Nat},
    dueChain startAt freq (some t0) l → ∀ t ∈ l, t0 + freq ≤ t := by
  intro l
  induction l with
  | nil =>
    intro t0 _ t ht
    cases ht
  | cons u rest ih =>
    intro t0 h t ht
    obtain ⟨hs, hp, hrest⟩ := h
    have h1 : t0 + freq ≤ u := hp t0 rfl
    rcases List.mem_cons.mp ht with rfl | ht2
    · exact h1
    · have h2 := ih hrest t ht2
      omega

/-- A dueChain separates every pair of elements by at least freq. -/
theorem dueChain_pairwise {startAt freq : Nat} : ∀ {l : List Nat} {prev : Option Nat},
    dueChain startAt freq prev l →
    List.Pairwise (fun a b => a + freq ≤ b) l := by
  intro l
  induction l with
  | nil =>
    intro prev _
    exact List.Pairwise.nil
  | cons u rest ih =>
    intro prev h
    obtain ⟨hs, hp, hrest⟩ := h
    exact List.Pairwise.cons (fun t ht => dueChain_ge hrest t ht) (ih hrest)

/-- Erasing a key from an association list cannot invent a binding. -/
theorem alookup_aerase_some {α β : Type} [DecidableEq α] {l : List (α × β)} {a c : α}
    {v : β} (h : alookup (aerase l a) c = some v) : alookup l c = some v := by
  by_cases hac : a = c
  · subst hac
    rw [alookup_aerase_self] at h
    cases h
  · rwa [alookup_aerase_ne l a c hac] at h

/-- Every successful call preserves the accounting invariant. -/
theorem applyOp_escrowInv {op : Op} {s s2 : ProgramState}
    (h : applyOp op s = Except.ok s2) (hinv : escrowInv s) : escrowInv s2 := by
  cases op with
  | setup caller appIdx inAmount perCycle freq minOut maxOut startAt now inMint outMint =>
    simp only [applyOp] at h
    obtain ⟨hv, hs, hl, rfl⟩ := setupDca_ok_inv h
    intro key r hr
    by_cases hk : (caller, appIdx) = key
    · subst hk
      rw [show ({ s with
            escrows := aset s.escrows (caller, appIdx)
              (newRecord caller appIdx inAmount perCycle freq minOut maxOut startAt now inMint outMint),
            custodyIn := aset s.custodyIn (caller, appIdx)
              (bal s.custodyIn (caller, appIdx) + inAmount) } : ProgramState).escrows =
          aset s.escrows (caller, appIdx)
            (newRecord caller appIdx inAmount perCycle freq minOut maxOut startAt now inMint outMint)
          from rfl, alookup_aset_self] at hr
      obtain rfl : newRecord caller appIdx inAmount perCycle freq minOut maxOut startAt
          now inMint outMint = r := by
        simpa using hr
      simp [newRecord]
    · rw [show ({ s with
            escrows := aset s.escrows (caller, appIdx)
              (newRecord caller appIdx inAmount perCycle freq minOut maxOut startAt now inMint outMint),
            custodyIn := aset s.custodyIn (caller, appIdx)
              (bal s.custodyIn (caller, appIdx) + inAmount) } : ProgramState).escrows =
          aset s.escrows (caller, appIdx)
            (newRecord caller appIdx inAmount perCycle freq minOut maxOut startAt now inMint outMint)
          from rfl, alookup_aset_ne _ _ _ _ hk] at hr
      exact hinv key r hr
  | cycle now key0 res =>
    simp only [applyOp] at h
    obtain ⟨r1, aOut, hl1, hdue, hrem, hres, hb, rfl⟩ := executeCycle_ok_inv h
    intro key r hr
    by_cases hk : key0 = key
    · subst hk
      rw [show ({ s with
            escrows := aset s.escrows key0 (cycledRecord r1 now aOut),
            custodyIn := aset s.custodyIn key0
              (bal s.custodyIn key0 - min r1.in_per_cycle (r1.in_deposited - r1.in_used)),
            custodyOut := aset s.custodyOut key0 (bal s.custodyOut key0 + aOut) } :
              ProgramState).escrows = aset s.escrows key0 (cycledRecord r1 now aOut)
          from rfl, alookup_aset_self] at hr
      obtain rfl : cycledRecord r1 now aOut = r := by
        simpa using hr
      have hmin := Nat.min_le_right r1.in_per_cycle (r1.in_deposited - r1.in_used)
      simp only [cycledRecord]
      omega
    · rw [show ({ s with
            escrows := aset s.escrows key0 (cycledRecord r1 now aOut),
            custodyIn := aset s.custodyIn key0
              (bal s.custodyIn key0 - min r1.in_per_cycle (r1.in_deposited - r1.in_used)),
            custodyOut := aset s.custodyOut key0 (bal s.custodyOut key0 + aOut) } :
              ProgramState).escrows = aset s.escrows key0 (cycledRecord r1 now aOut)
          from rfl, alookup_aset_ne _ _ _ _ hk] at hr
      exact hinv key r hr
  | close caller appIdx =>
    simp only [applyOp] at h
    obtain ⟨r1, hl1, rfl⟩ := close_ok_inv h
    intro key r hr
    exact hinv key r (alookup_aerase_some hr)
  | claim p aid amount =>
    simp only [applyOp] at h
    obtain ⟨hl, rfl⟩ := airdrop_ok_inv h
    intro key r hr
    exact hinv key r hr

/-- The accounting invariant holds of every state run reaches from an
invariant state. -/
theorem run_escrowInv (ops : List Op) : ∀ s : ProgramState,
    escrowInv s → escrowInv (run ops s) := by
  induction ops with
  | nil =>
    intro s h
    simpa [run] using h
  | cons op rest ih =>
    intro s h
    rw [run]
    apply ih
    rcases hE : applyOp op s with e | s2
    · simpa [recover, hE] using h
    · simp only [hE, recover]
      exact applyOp_escrowInv hE h

/-- A claimed marker, once set, survives every later call. -/
theorem applyOp_claimed_mono {op : Op} {s s2 : ProgramState} {p aid : Nat}
    (h : applyOp op s = Except.ok s2)
    (hm : alookup s.claimed (p, aid) = some ()) :
    alookup s2.claimed (p, aid) = some () := by
  cases op with
  | setup caller appIdx inAmount perCycle freq minOut maxOut startAt now inMint outMint =>
    simp only [applyOp] at h
    obtain ⟨hv, hs, hl, rfl⟩ := setupDca_ok_inv h
    exact hm
  | cycle now key0 res =>
    simp only [applyOp] at h
    obtain ⟨r1, aOut, hl1, hdue, hrem, hres, hb, rfl⟩ := executeCycle_ok_inv h
    exact hm
  | close caller appIdx =>
    simp only [applyOp] at h
    obtain ⟨r1, hl1, rfl⟩ := close_ok_inv h
    exact hm
  | claim q qid amt =>
    simp only [applyOp] at h
    obtain ⟨hl, rfl⟩ := airdrop_ok_inv h
    by_cases hk : ((q, qid) : Nat × Nat) = (p, aid)
    · rw [hk] at hl
      rw [hm] at hl
      cases hl
    · rw [show ({ s with
            claimed := aset s.claimed (q, qid) (),
            rewards := aset s.rewards q (bal s.rewards q + amt) } : ProgramState).claimed =
          aset s.claimed (q, qid) () from rfl, alookup_aset_ne _ _ _ _ hk]
      exact hm

/-- A claimed marker survives any sequence of calls. -/
theorem run_claimed_mono (ops : List Op) : ∀ (s : ProgramState) (p aid : Nat),
    alookup s.claimed (p, aid) = some () →
    alookup (run ops s).claimed (p, aid) = some () := by
  induction ops with
  | nil =>
    intro s p aid h
    simpa [run] using h
  | cons op rest ih =>
    intro s p aid h
    rw [run]
    apply ih
    rcases hE : applyOp op s with e | s2
    · simpa [recover, hE] using h
    · simp only [hE, recover]
      exact applyOp_claimed_mono hE h

/-- Claim C1: for a record created by Setup (in_used = 0, cycles_executed = 0),
after any sequence of Cycle Execution calls with N successes, in_used equals
min(N * in_per_cycle, in_deposited) and cycles_executed equals N; and each
successful cycle advances in_used by exactly
min(in_per_cycle, in_deposited - in_used) computed on the pre-call state. -/
theorem c1_cycle_accounting (key : Key) (inputs : List (Nat × Option Nat))
    (s : ProgramState) (r : EscrowRecord)
    (h : alookup s.escrows key = some r)
    (h0 : r.in_used = 0) (hc : r.cycles_executed = 0) :
    (∃ r2, alookup (cycleRun key inputs s).1.escrows key = some r2 ∧
      r2.in_used = min ((cycleRun key inputs s).2.length * r.in_per_cycle) r.in_deposited ∧
      r2.cycles_executed = (cycleRun key inputs s).2.length) ∧
    (∀ (now : Nat) (res : Option Nat) (s3 : ProgramState) (r3 : EscrowRecord)
        (s4 : ProgramState),
      alookup s3.escrows key = some r3 →
      executeCycle now key res s3 = Except.ok s4 →
      ∃ r4, alookup s4.escrows key = some r4 ∧
        r4.in_used = r3.in_used + min r3.in_per_cycle (r3.in_deposited - r3.in_used)) := by
  constructor
  · have hinv : r.in_used = min (r.cycles_executed * r.in_per_cycle) r.in_deposited := by
      simp [h0, hc]
    obtain ⟨r2, hl2, hper, hdep, hcy, hu⟩ := cycleRun_accounting key inputs s r h hinv
    rw [hc, Nat.zero_add] at hcy
    exact ⟨r2, hl2, by rw [hu, hcy], hcy⟩
  · intro now res s3 r3 s4 h3 hE
    obtain ⟨r1, aOut, hl1, hdue, hrem, hres, hb, rfl⟩ := executeCycle_ok_inv hE
    rw [h3] at hl1
    obtain rfl : r3 = r1 := by
      simpa using hl1
    exact ⟨cycledRecord r3 now aOut,
      alookup_aset_self s3.escrows key (cycledRecord r3 now aOut), rfl⟩

/-- Witness for C1: the sample strategy run through two due cycles. -/
theorem c1_cycle_accounting_witness :
    (∃ r2, alookup (cycleRun (1, 0) [(0, some 7), (3600, some 9)] sampleState).1.escrows
        (1, 0) = some r2 ∧
      r2.in_used = min ((cycleRun (1, 0) [(0, some 7), (3600, some 9)] sampleState).2.length *
        sampleRecord.in_per_cycle) sampleRecord.in_deposited ∧
      r2.cycles_executed = (cycleRun (1, 0) [(0, some 7), (3600, some 9)] sampleState).2.length) ∧
    (∀ (now : Nat) (res : Option Nat) (s3 : ProgramState) (r3 : EscrowRecord)
        (s4 : ProgramState),
      alookup s3.escrows (1, 0) = some r3 →
      executeCycle now (1, 0) res s3 = Except.ok s4 →
      ∃ r4, alookup s4.escrows (1, 0) = some r4 ∧
        r4.in_used = r3.in_used + min r3.in_per_cycle (r3.in_deposited - r3.in_used)) :=
  c1_cycle_accounting (1, 0) [(0, some 7), (3600, some 9)] sampleState sampleRecord
    (by decide) (by decide) (by decide)

/-- Claim C2: in every state reachable from the empty state by any sequence of
calls (successful or failed), every existing record satisfies
in_used ≤ in_deposited. -/
theorem c2_in_used_le_in_deposited (ops : List Op) (key : Key) (r : EscrowRecord)
    (h : alookup (run ops emptyState).escrows key = some r) :
    r.in_used ≤ r.in_deposited := by
  refine run_escrowInv ops emptyState ?_ key r h
  intro k r2 hr
  simp [emptyState, alookup] at hr

/-- Witness for C2 after one successful Setup call. -/
theorem c2_in_used_le_in_deposited_witness :
    alookup (run [Op.setup 1 0 1000 100 3600 0 0 none 0 10 11] emptyState).escrows (1, 0) =
      some (newRecord 1 0 1000 100 3600 0 0 none 0 10 11) ∧
    (newRecord 1 0 1000 100 3600 0 0 none 0 10 11).in_used ≤
      (newRecord 1 0 1000 100 3600 0 0 none 0 10 11).in_deposited :=
  ⟨by decide, c2_in_used_le_in_deposited [Op.setup 1 0 1000 100 3600 0 0 none 0 10 11]
    (1, 0) (newRecord 1 0 1000 100 3600 0 0 none 0 10 11) (by decide)⟩

/-- Claim C3: along any sequence of Cycle Execution calls against a record, no
successful cycle happens before start_at, any two successful cycles are at
least cycle_frequency apart, and a call made when the record is not due fails
with CycleNotDue and leaves the state (hence in_used) unchanged. -/
theorem c3_schedule (key : Key) (inputs : List (Nat × Option Nat)) (s : ProgramState)
    (r : EscrowRecord) (h : alookup s.escrows key = some r) :
    (∀ t ∈ (cycleRun key inputs s).2, r.start_at ≤ t) ∧
    List.Pairwise (fun a b => a + r.cycle_frequency ≤ b) (cycleRun key inputs s).2 ∧
    (∀ (now : Nat) (res : Option Nat), isDue r now = false →
      executeCycle now key res s = Except.error Err.CycleNotDue ∧
      recover (executeCycle now key res s) s = s) := by
  have hch := cycleRun_dueChain key inputs s r h
  refine ⟨dueChain_start hch, dueChain_pairwise hch, ?_⟩
  intro now res hd
  have he := executeCycle_notDue res h hd
  refine ⟨he, ?_⟩
  rw [he]
  rfl

/-- Witness for C3: the sample strategy with one premature call interleaved. -/
theorem c3_schedule_witness :
    (∀ t ∈ (cycleRun (1, 0) [(0, some 7), (100, some 7), (3600, some 9)] sampleState).2,
      sampleRecord.start_at ≤ t) ∧
    List.Pairwise (fun a b => a + sampleRecord.cycle_frequency ≤ b)
      (cycleRun (1, 0) [(0, some 7), (100, some 7), (3600, some 9)] sampleState).2 ∧
    (∀ (now : Nat) (res : Option Nat), isDue sampleRecord now = false →
      executeCycle now (1, 0) res sampleState = Except.error Err.CycleNotDue ∧
      recover (executeCycle now (1, 0) res sampleState) sampleState = sampleState) :=
  c3_schedule (1, 0) [(0, some 7), (100, some 7), (3600, some 9)] sampleState sampleRecord
    (by decide)

/-- Claim C4: every failing call leaves the persistent state unchanged; on a
due, incomplete record an adapter failure fails the cycle with SwapFailed and
a bound-violating output fails it with SlippageExceeded, in both cases with
every field and custody balance as before the call. -/
theorem c4_atomic_errors :
    (∀ (op : Op) (s : ProgramState) (e : Err),
      applyOp op s = Except.error e → recover (applyOp op s) s = s) ∧
    (∀ (now : Nat) (key : Key) (s : ProgramState) (r : EscrowRecord),
      alookup s.escrows key = some r → isDue r now = true →
      r.in_deposited - r.in_used ≠ 0 →
      executeCycle now key none s = Except.error Err.SwapFailed ∧
      recover (executeCycle now key none s) s = s) ∧
    (∀ (now : Nat) (key : Key) (amountOut : Nat) (s : ProgramState) (r : EscrowRecord),
      alookup s.escrows key = some r → isDue r now = true →
      r.in_deposited - r.in_used ≠ 0 → boundsViolated r amountOut = true →
      executeCycle now key (some amountOut) s = Except.error Err.SlippageExceeded ∧
      recover (executeCycle now key (some amountOut) s) s = s) := by
  refine ⟨?_, ?_, ?_⟩
  · intro op s e h
    rw [h]
    rfl
  · intro now key s r hl hdue hrem
    have he := executeCycle_swapFailed hl hdue hrem
    exact ⟨he, by rw [he]; rfl⟩
  · intro now key aOut s r hl hdue hrem hb
    have he := executeCycle_slippage hl hdue hrem hb
    exact ⟨he, by rw [he]; rfl⟩

/-- Witness for C4: adapter failure against the sample strategy. -/
theorem c4_atomic_errors_witness :
    executeCycle 3600 (1, 0) none sampleState = Except.error Err.SwapFailed ∧
    recover (executeCycle 3600 (1, 0) none sampleState) sampleState = sampleState :=
  c4_atomic_errors.2.1 3600 (1, 0) sampleState sampleRecord (by decide) (by decide)
    (by decide)

/-- Claim C5: with the record due and incomplete, a cycle step whose adapter
returns amountOut fails with SlippageExceeded exactly when a set bound is
violated, a bound equal to 0 meaning unbounded on that side. -/
theorem c5_slippage_iff (now : Nat) (key : Key) (amountOut : Nat) (s : ProgramState)
    (r : EscrowRecord) (h : alookup s.escrows key = some r)
    (hdue : isDue r now = true) (hrem : r.in_deposited - r.in_used ≠ 0) :
    (executeCycle now key (some amountOut) s = Except.error Err.SlippageExceeded) ↔
      ((r.min_out_amount ≠ 0 ∧ amountOut < r.min_out_amount) ∨
       (r.max_out_amount ≠ 0 ∧ r.max_out_amount < amountOut)) := by
  by_cases hb : boundsViolated r amountOut = true
  · rw [executeCycle_slippage h hdue hrem hb]
    simp [(boundsViolated_iff r amountOut).mp hb]
  · have hb2 : boundsViolated r amountOut = false := by
      simpa using hb
    have hR : ¬((r.min_out_amount ≠ 0 ∧ amountOut < r.min_out_amount) ∨
        (r.max_out_amount ≠ 0 ∧ r.max_out_amount < amountOut)) := by
      rw [← boundsViolated_iff]
      simp [hb2]
    rw [executeCycle_ok_eq h hdue hrem hb2]
    simp [hR]

/-- Witness for C5: an output below the sample lower bound of 50. -/
theorem c5_slippage_iff_witness :
    (executeCycle 0 (1, 1) (some 10) sampleStateB = Except.error Err.SlippageExceeded) ↔
      ((sampleRecordB.min_out_amount ≠ 0 ∧ 10 < sampleRecordB.min_out_amount) ∨
       (sampleRecordB.max_out_amount ≠ 0 ∧ sampleRecordB.max_out_amount < 10)) :=
  c5_slippage_iff 0 (1, 1) 10 sampleStateB sampleRecordB (by decide) (by decide) (by decide)

/-- Claim C6: with a start time that is not in the past (or absent), Setup
fails with InvalidParameters exactly when in_amount = 0,
in_amount_per_cycle = 0, in_amount_per_cycle > in_amount,
cycle_frequency = 0, or both output bounds are nonzero with min above max. -/
theorem c6_setup_invalid_iff (caller appIdx inAmount perCycle freq minOut maxOut : Nat)
    (startAt : Option Nat) (now inMint outMint : Nat) (s : ProgramState)
    (hstart : startOk startAt now = true) :
    (setupDca caller appIdx inAmount perCycle freq minOut maxOut startAt now inMint outMint s
        = Except.error Err.InvalidParameters) ↔
      (inAmount = 0 ∨ perCycle = 0 ∨ inAmount < perCycle ∨ freq = 0 ∨
        (minOut ≠ 0 ∧ maxOut ≠ 0 ∧ maxOut < minOut)) := by
  by_cases hv : validParams inAmount perCycle freq minOut maxOut = false
  · rw [setupDca, if_pos hv]
    simp [(validParams_false_iff inAmount perCycle freq minOut maxOut).mp hv]
  · have hv2 : validParams inAmount perCycle freq minOut maxOut = true := by
      simpa using hv
    have hR : ¬(inAmount = 0 ∨ perCycle = 0 ∨ inAmount < perCycle ∨ freq = 0 ∨
        (minOut ≠ 0 ∧ maxOut ≠ 0 ∧ maxOut < minOut)) := by
      rw [← validParams_false_iff]
      simp [hv2]
    rcases hl : alookup s.escrows (caller, appIdx) with _ | r
    · rw [setupDca_ok_eq hv2 hstart hl]
      simp [hR]
    · rw [setupDca_dup hv2 hstart hl]
      simp [hR]

/-- Witness for C6: a zero deposit is rejected as InvalidParameters. -/
theorem c6_setup_invalid_iff_witness :
    (setupDca 1 0 0 100 3600 0 0 none 0 10 11 emptyState
        = Except.error Err.InvalidParameters) ↔
      ((0 : Nat) = 0 ∨ (100 : Nat) = 0 ∨ (0 : Nat) < 100 ∨ (3600 : Nat) = 0 ∨
        ((0 : Nat) ≠ 0 ∧ (0 : Nat) ≠ 0 ∧ (0 : Nat) < 0)) :=
  c6_setup_invalid_iff 1 0 0 100 3600 0 0 none 0 10 11 emptyState (by decide)

/-- Claim C7: a valid Setup on a fresh key succeeds, increases the program
custody of the input asset by exactly in_amount, and creates the record keyed
by (owner, application_index) with in_used = 0, out_received = 0 and
cycles_executed = 0; on an occupied key it fails with DuplicateStrategy (and,
the call being all-or-nothing, has no effect). -/
theorem c7_setup_effects (caller appIdx inAmount perCycle freq minOut maxOut : Nat)
    (startAt : Option Nat) (now inMint outMint : Nat) (s : ProgramState)
    (hv : validParams inAmount perCycle freq minOut maxOut = true)
    (hstart : startOk startAt now = true) :
    (alookup s.escrows (caller, appIdx) = none →
      ∃ s2, setupDca caller appIdx inAmount perCycle freq minOut maxOut startAt
          now inMint outMint s = Except.ok s2 ∧
        bal s2.custodyIn (caller, appIdx) = bal s.custodyIn (caller, appIdx) + inAmount ∧
        ∃ r, alookup s2.escrows (caller, appIdx) = some r ∧
          r.owner = caller ∧ r.application_index = appIdx ∧ r.in_deposited = inAmount ∧
          r.in_used = 0 ∧ r.out_received = 0 ∧ r.cycles_executed = 0) ∧
    (∀ r, alookup s.escrows (caller, appIdx) = some r →
      setupDca caller appIdx inAmount perCycle freq minOut maxOut startAt now inMint outMint s
        = Except.error Err.DuplicateStrategy) := by
  constructor
  · intro hl
    refine ⟨_, setupDca_ok_eq hv hstart hl, ?_, ?_⟩
    · exact bal_aset_self s.custodyIn (caller, appIdx) _
    · exact ⟨newRecord caller appIdx inAmount perCycle freq minOut maxOut startAt now inMint outMint,
        alookup_aset_self s.escrows (caller, appIdx) _, rfl, rfl, rfl, rfl, rfl, rfl⟩
  · intro r hl
    exact setupDca_dup hv hstart hl

/-- Witness for C7: the sample strategy parameters against the empty state. -/
theorem c7_setup_effects_witness :
    (alookup emptyState.escrows (1, 0) = none →
      ∃ s2, setupDca 1 0 1000 100 3600 0 0 none 0 10 11 emptyState = Except.ok s2 ∧
        bal s2.custodyIn (1, 0) = bal emptyState.custodyIn (1, 0) + 1000 ∧
        ∃ r, alookup s2.escrows (1, 0) = some r ∧
          r.owner = 1 ∧ r.application_index = 0 ∧ r.in_deposited = 1000 ∧
          r.in_used = 0 ∧ r.out_received = 0 ∧ r.cycles_executed = 0) ∧
    (∀ r, alookup emptyState.escrows (1, 0) = some r →
      setupDca 1 0 1000 100 3600 0 0 none 0 10 11 emptyState
        = Except.error Err.DuplicateStrategy) :=
  c7_setup_effects 1 0 1000 100 3600 0 0 none 0 10 11 emptyState (by decide) (by decide)

/-- Claim C8: Close on an existing record for the caller's key pays the owner
exactly in_deposited - in_used of the input asset and out_received of the
output asset, destroys the record and leaves no custodied funds under the
key, after which a second Close fails with NotFound; Close with no record
fails with NotFound. -/
theorem c8_close_semantics (caller appIdx : Nat) (s : ProgramState) :
    (∀ r, alookup s.escrows (caller, appIdx) = some r →
      ∃ s2, close caller appIdx s = Except.ok s2 ∧
        bal s2.ownerIn caller = bal s.ownerIn caller + (r.in_deposited - r.in_used) ∧
        bal s2.ownerOut caller = bal s.ownerOut caller + r.out_received ∧
        alookup s2.escrows (caller, appIdx) = none ∧
        bal s2.custodyIn (caller, appIdx) = 0 ∧
        bal s2.custodyOut (caller, appIdx) = 0 ∧
        close caller appIdx s2 = Except.error Err.NotFound) ∧
    (alookup s.escrows (caller, appIdx) = none →
      close caller appIdx s = Except.error Err.NotFound) := by
  constructor
  · intro r hl
    refine ⟨_, close_ok_eq hl, ?_, ?_, ?_, ?_, ?_, ?_⟩
    · exact bal_aset_self s.ownerIn caller _
    · exact bal_aset_self s.ownerOut caller _
    · exact alookup_aerase_self s.escrows (caller, appIdx)
    · exact bal_aset_self s.custodyIn (caller, appIdx) 0
    · exact bal_aset_self s.custodyOut (caller, appIdx) 0
    · exact close_notFound (alookup_aerase_self s.escrows (caller, appIdx))
  · intro hl
    exact close_notFound hl

/-- Witness for C8: closing the sample strategy and closing it again. -/
theorem c8_close_semantics_witness :
    ∃ s2, close 1 0 sampleState = Except.ok s2 ∧
      bal s2.ownerIn 1 = bal sampleState.ownerIn 1 +
        (sampleRecord.in_deposited - sampleRecord.in_used) ∧
      bal s2.ownerOut 1 = bal sampleState.ownerOut 1 + sampleRecord.out_received ∧
      alookup s2.escrows (1, 0) = none ∧
      bal s2.custodyIn (1, 0) = 0 ∧
      bal s2.custodyOut (1, 0) = 0 ∧
      close 1 0 s2 = Except.error Err.NotFound :=
  (c8_close_semantics 1 0 sampleState).1 sampleRecord (by decide)

/-- Claim C9: the first airdrop claim for a (participant, airdrop_id) pair
succeeds, transfers the reward and sets the claimed marker; every later claim
for the same pair fails with AlreadyClaimed regardless of the calls made in
between. -/
theorem c9_airdrop_exactly_once (p aid amount : Nat) (s : ProgramState) :
    (alookup s.claimed (p, aid) = none →
      ∃ s2, airdrop p aid amount s = Except.ok s2 ∧
        alookup s2.claimed (p, aid) = some () ∧
        bal s2.rewards p = bal s.rewards p + amount ∧
        ∀ (ops : List Op) (amount2 : Nat),
          airdrop p aid amount2 (run ops s2) = Except.error Err.AlreadyClaimed) ∧
    (∀ u, alookup s.claimed (p, aid) = some u →
      airdrop p aid amount s = Except.error Err.AlreadyClaimed) := by
  constructor
  · intro hl
    refine ⟨_, airdrop_ok_eq hl, alookup_aset_self s.claimed (p, aid) (),
      bal_aset_self s.rewards p _, ?_⟩
    intro ops amount2
    exact airdrop_already (run_claimed_mono ops _ p aid (alookup_aset_self s.claimed (p, aid) ()))
  · intro u hl
    exact airdrop_already hl

/-- Witness for C9: a fresh claim against the empty state. -/
theorem c9_airdrop_exactly_once_witness :
    ∃ s2, airdrop 4 9 250 emptyState = Except.ok s2 ∧
      alookup s2.claimed (4, 9) = some () ∧
      bal s2.rewards 4 = bal emptyState.rewards 4 + 250 ∧
      ∀ (ops : List Op) (amount2 : Nat),
        airdrop 4 9 amount2 (run ops s2) = Except.error Err.AlreadyClaimed :=
  (c9_airdrop_exactly_once 4 9 250 emptyState).1 (by decide)

/-- Claim C10 counterexample: in the repository's caller-facing usage the
airdrop method is invoked with an empty argument list, not with a single
airdrop_id argument as the claim states. -/
theorem c10_counterexample :
    (alookup publicSurface "airdrop").map List.length = some 0 ∧
    (alookup publicSurface "airdrop").map List.length ≠ some 1 := by
  decide

/-- Claim C10 (amended): the public surface consists of setupDca with exactly
the seven documented parameters, close with no parameters, and airdrop with
no explicit parameters; no method takes the caller identity as an explicit
argument. -/
theorem c10_public_surface :
    alookup publicSurface "setupDca" =
      some ["applicationIdx", "inAmount", "inAmountPerCycle", "cycleFrequency",
            "minOutAmount", "maxOutAmount", "startAt"] ∧
    alookup publicSurface "close" = some [] ∧
    alookup publicSurface "airdrop" = some [] ∧
    publicSurface.length = 3 ∧
    ∀ m ps, alookup publicSurface m = some ps → "owner" ∉ ps ∧ "caller" ∉ ps := by
  refine ⟨by decide, by decide, by decide, by decide, ?_⟩
  intro m ps h
  simp only [publicSurface, alookup] at h
  split_ifs at h
  · cases h
    exact ⟨by decide, by decide⟩
  · cases h
    exact ⟨by decide, by decide⟩
  · cases h
    exact ⟨by decide, by decide⟩

/-- Witness for the amended C10 at the setupDca entry. -/
theorem c10_public_surface_witness :
    "owner" ∉ ["applicationIdx", "inAmount", "inAmountPerCycle", "cycleFrequency",
      "minOutAmount", "maxOutAmount", "startAt"] ∧
    "caller" ∉ ["applicationIdx", "inAmount", "inAmountPerCycle", "cycleFrequency",
      "minOutAmount", "maxOutAmount", "startAt"] :=
  c10_public_surface.2.2.2.2 "setupDca"
    ["applicationIdx", "inAmount", "inAmountPerCycle", "cycleFrequency",
      "minOutAmount", "maxOutAmount", "startAt"] (by decide)

end TradingBot
